import Mathlib

/-!
Verification of the VWAP tracker core: a shallow embedding of the three core
components of the repository and proofs about them.

* `RollingVWAP` — the windowed VWAP/deviation aggregator (`rolling-vwap.js`);
* the strategy decision engine with the post-stop-loss reentry lock
  (`evaluateEntry`/`evaluateExit` of `strategy.js`);
* `PaperTrading` — the simulated position ledger (`paper-trading.js`);
plus the per-snapshot orchestration step of `server.js` (the `update` handler)
that wires them together.

JavaScript numbers are modelled as exact rationals (`ℚ`); unix-second
timestamps as `ℤ`.  JavaScript `null`/`undefined` is modelled as `Option`;
JS truthiness tests on numbers (`!x`) treat both `null` and `0` as falsy and
are modelled by explicit zero tests next to the `Option` match.
Human-readable `reason` strings (pure presentation, built with `toFixed`) are
omitted from the signal records; every field the code branches on is kept.
-/

namespace VwapCore

/-- A stored bar of the primary VWAP window (the values `updateCandle` puts
into `this.candles`): high/low/close (the code never stores `open`), volume,
and the derived `typicalPrice`/`priceVolume`. -/
structure Candle where
  start : ℤ
  high : ℚ
  low : ℚ
  close : ℚ
  volume : ℚ
  typicalPrice : ℚ
  priceVolume : ℚ
  deriving Repr, DecidableEq

/-- A raw candle as it arrives from the feed (the fields `updateCandle` reads). -/
structure CandleInput where
  start : ℤ
  high : ℚ
  low : ℚ
  close : ℚ
  volume : ℚ
  deriving Repr, DecidableEq

/-- A deviation-history snapshot as built by `recordDeviation`. -/
structure DevSnapshot where
  timestamp : ℤ
  price : ℚ
  vwap : ℚ
  deviation : ℚ
  deviationPercent : ℚ
  deriving Repr, DecidableEq

/-- The mutable state of a `RollingVWAP` instance.  `candles` models the JS
`Map` keyed by `start` in insertion order; `currentVWAP`, `currentPrice` and
`currentCandleStart` start out as `null` (`none`).  The display-only fields
`productId` and `lastUpdate` (a wall-clock echo never read by any
computation) are omitted. -/
structure RollingVWAP where
  windowHours : ℕ
  deviationHistoryWindowHours : ℕ
  maxCandles : ℕ
  candles : List Candle
  totalPriceVolume : ℚ
  totalVolume : ℚ
  currentVWAP : Option ℚ
  currentPrice : Option ℚ
  currentCandleStart : Option ℤ
  deviationHistory : List DevSnapshot
  deriving Repr

/-- The constructor `new RollingVWAP(productId, windowHours, devWindowHours)`.
`candleIntervalSeconds` is the constant 300, so
`maxCandles = windowHours*60*60/300`. -/
def RollingVWAP.init (windowHours : ℕ := 12) (deviationHistoryWindowHours : ℕ := 72) :
    RollingVWAP where
  windowHours := windowHours
  deviationHistoryWindowHours := deviationHistoryWindowHours
  maxCandles := windowHours * 60 * 60 / 300
  candles := []
  totalPriceVolume := 0
  totalVolume := 0
  currentVWAP := none
  currentPrice := none
  currentCandleStart := none
  deviationHistory := []

/-- Sum of the stored `priceVolume` fields over a bar list (the from-scratch
counterpart of the running total `this.totalPriceVolume`). -/
def sumPV (cs : List Candle) : ℚ := (cs.map (·.priceVolume)).sum

/-- Sum of the stored `volume` fields over a bar list (the from-scratch
counterpart of the running total `this.totalVolume`). -/
def sumVol (cs : List Candle) : ℚ := (cs.map (·.volume)).sum

/-- Lookup by key: `this.candles.get(start)` / `this.candles.has(start)`. -/
def findCandle (cs : List Candle) (s : ℤ) : Option Candle :=
  cs.find? (fun c => c.start = s)

/-- Keyed insertion `this.candles.set(start, c)`: a JS `Map.set` keeps the
insertion position of an existing key and appends a fresh key at the end. -/
def setCandle : List Candle → Candle → List Candle
  | [], c => [c]
  | c0 :: rest, c => if c0.start = c.start then c :: rest else c0 :: setCandle rest c

/-- First phase of `removeOldCandles`: the loop that deletes every candle with
`start < now - windowHours*60*60` and subtracts its contribution from the
running totals.  The JS loop deletes during iteration; its net effect is the
filter below together with subtracting the sums over the removed candles. -/
def RollingVWAP.pruneByAge (st : RollingVWAP) (now : ℤ) : RollingVWAP :=
  let cutoffTime : ℤ := now - st.windowHours * 60 * 60
  let removed := st.candles.filter (fun c => c.start < cutoffTime)
  { st with
    candles := st.candles.filter (fun c => ¬ c.start < cutoffTime)
    totalPriceVolume := st.totalPriceVolume - sumPV removed
    totalVolume := st.totalVolume - sumVol removed }

/-- One iteration of the `while (this.candles.size > this.maxCandles)` body:
`Math.min(...keys)`, `get`, subtract the candle's contribution, `delete`. -/
def RollingVWAP.removeOldest (st : RollingVWAP) : RollingVWAP :=
  match (st.candles.map (·.start)).min? with
  | none => st
  | some oldestStart =>
    match findCandle st.candles oldestStart with
    | none => st
    | some oldCandle =>
      { st with
        candles := st.candles.eraseP (fun c => c.start = oldestStart)
        totalPriceVolume := st.totalPriceVolume - oldCandle.priceVolume
        totalVolume := st.totalVolume - oldCandle.volume }

/-- Fuel-indexed unfolding of the `while (this.candles.size > this.maxCandles)`
loop of `removeOldCandles`.  Fuel `st.candles.length` is enough to reproduce
the loop exactly, because every iteration removes exactly one candle (see
`enforceMax_drains` below, which certifies the loop's exit condition). -/
def RollingVWAP.enforceMaxAux : ℕ → RollingVWAP → RollingVWAP
  | 0, st => st
  | fuel + 1, st =>
    if st.candles.length > st.maxCandles then
      RollingVWAP.enforceMaxAux fuel st.removeOldest
    else st

/-- Second phase of `removeOldCandles`: drop oldest candles while the count
exceeds the max-bar budget. -/
def RollingVWAP.enforceMax (st : RollingVWAP) : RollingVWAP :=
  RollingVWAP.enforceMaxAux st.candles.length st

/-- Last phase of `removeOldCandles` (also the tail of `recordDeviation`):
drop deviation snapshots older than the 72-hour window. -/
def RollingVWAP.pruneDevHistory (st : RollingVWAP) (now : ℤ) : RollingVWAP :=
  let cutoffTime : ℤ := now - st.deviationHistoryWindowHours * 60 * 60
  { st with deviationHistory := st.deviationHistory.filter (fun e => cutoffTime ≤ e.timestamp) }

/-- The pruning pass `removeOldCandles()`, with the wall clock passed
explicitly (`now = Math.floor(Date.now()/1000)`): age-based eviction, then
the max-bar budget, then deviation-history pruning. -/
def RollingVWAP.removeOldCandles (st : RollingVWAP) (now : ℤ) : RollingVWAP :=
  ((st.pruneByAge now).enforceMax).pruneDevHistory now

/-- Recompute `currentVWAP` from the running totals, `updateStats()`:
`currentVWAP = totalVolume > 0 ? totalPriceVolume / totalVolume : null`. -/
def RollingVWAP.updateStats (st : RollingVWAP) : RollingVWAP :=
  if st.totalVolume > 0 then
    { st with currentVWAP := some (st.totalPriceVolume / st.totalVolume) }
  else
    { st with currentVWAP := none }

/-- Replace the first deviation snapshot with the given timestamp
(`this.deviationHistory[existingIndex] = snapshot`). -/
def replaceFirstSnap : List DevSnapshot → ℤ → DevSnapshot → List DevSnapshot
  | [], _, _ => []
  | d :: rest, ts, s =>
    if d.timestamp = ts then s :: rest else d :: replaceFirstSnap rest ts s

/-- Snapshot recording, `recordDeviation()`.  The guard
`!this.currentVWAP || !this.currentPrice || !this.currentCandleStart` is JS
truthiness: it returns early when any of the three is `null` **or** exactly
`0`.  On the record path the snapshot either replaces the existing entry for
the same candle timestamp or is appended and the history re-sorted by
timestamp; entries older than the 72-hour window are then pruned. -/
def RollingVWAP.recordDeviation (st : RollingVWAP) (now : ℤ) : RollingVWAP :=
  match st.currentVWAP, st.currentPrice, st.currentCandleStart with
  | some vwap, some price, some candleTimestamp =>
    if vwap = 0 ∨ price = 0 ∨ candleTimestamp = 0 then st
    else
      let deviation := price - vwap
      let snapshot : DevSnapshot :=
        { timestamp := candleTimestamp, price := price, vwap := vwap
          deviation := deviation, deviationPercent := deviation / vwap * 100 }
      let hist :=
        if (st.deviationHistory.findIdx? (fun d => d.timestamp = candleTimestamp)).isSome then
          replaceFirstSnap st.deviationHistory candleTimestamp snapshot
        else
          (st.deviationHistory ++ [snapshot]).mergeSort (fun a b => a.timestamp ≤ b.timestamp)
      let cutoffTime : ℤ := now - st.deviationHistoryWindowHours * 60 * 60
      { st with deviationHistory := hist.filter (fun e => cutoffTime ≤ e.timestamp) }
  | _, _, _ => st

/-- Live bar ingestion, `updateCandle(candle)`, with the wall clock passed
explicitly: revise an existing bar in place (subtracting its old contribution
first) or evict expired bars, then insert the bar, refresh the running
totals, current price/timestamp, `currentVWAP`, and the deviation history. -/
def RollingVWAP.updateCandle (st : RollingVWAP) (c : CandleInput) (now : ℤ) : RollingVWAP :=
  let typicalPrice := (c.high + c.low + c.close) / 3
  let priceVolume := typicalPrice * c.volume
  let st1 :=
    match findCandle st.candles c.start with
    | some oldCandle =>
      { st with
        totalPriceVolume := st.totalPriceVolume - oldCandle.priceVolume
        totalVolume := st.totalVolume - oldCandle.volume }
    | none => st.removeOldCandles now
  let newCandle : Candle :=
    { start := c.start, high := c.high, low := c.low, close := c.close
      volume := c.volume, typicalPrice := typicalPrice, priceVolume := priceVolume }
  let st2 :=
    { st1 with
      candles := setCandle st1.candles newCandle
      totalPriceVolume := st1.totalPriceVolume + priceVolume
      totalVolume := st1.totalVolume + c.volume
      currentPrice := some c.close
      currentCandleStart := some c.start }
  (st2.updateStats).recordDeviation now

/-- Ticker ingestion, `updatePrice(price)`: refresh the displayed price only. -/
def RollingVWAP.updatePrice (st : RollingVWAP) (price : ℚ) : RollingVWAP :=
  { st with currentPrice := some price }

/-- Absolute deviation, `getDeviation()`: `null` when VWAP or price is `null`
or `0` (JS truthiness), else `price - vwap`. -/
def RollingVWAP.getDeviation (st : RollingVWAP) : Option ℚ :=
  match st.currentVWAP, st.currentPrice with
  | some vwap, some price =>
    if vwap = 0 ∨ price = 0 then none else some (price - vwap)
  | _, _ => none

/-- Percent deviation, `getDeviationPercent()`: `null` under the same
truthiness guard, else `(price - vwap)/vwap * 100`. -/
def RollingVWAP.getDeviationPercent (st : RollingVWAP) : Option ℚ :=
  match st.currentVWAP, st.currentPrice with
  | some vwap, some price =>
    if vwap = 0 ∨ price = 0 then none else some ((price - vwap) / vwap * 100)
  | _, _ => none

/-- Nearest-rank selection, the `percentile(arr, p)` helper of
`getDeviationStats`: index `Math.floor(p/100 * n)` clamped above by `n-1`;
`null` on an empty array.  (`arr[i]` for a negative index is JS `undefined`,
modelled `none`.) -/
def percentile (arr : List ℚ) (p : ℚ) : Option ℚ :=
  if arr.length = 0 then none
  else
    let index : ℤ := Int.floor (p / 100 * arr.length)
    let i : ℤ := min index ((arr.length : ℤ) - 1)
    if 0 ≤ i then arr.get? i.toNat else none

/-- Nearest-rank selection as the spec words it: "index `= floor(p/100 * n)`,
clamped to `n-1`; returns `null` on empty input".  Spec-side definition, to
be compared with the `percentile` helper embedded from the source. -/
def nearestRankSpec (arr : List ℚ) (p : ℚ) : Option ℚ :=
  if arr.length = 0 then none
  else arr.get? (min (Int.floor (p / 100 * arr.length)).toNat (arr.length - 1))

/-- The running-totals invariant of the aggregator: `totalPriceVolume` and
`totalVolume` are exactly the sums over the currently retained bars. -/
def Consistent (st : RollingVWAP) : Prop :=
  st.totalPriceVolume = sumPV st.candles ∧ st.totalVolume = sumVol st.candles

/-- An event applied to the aggregator: a live bar from the feed
(`updateCandle`), an independent maintenance pass (`removeOldCandles` on a
timer), or a cosmetic ticker tick (`updatePrice`). -/
inductive VOp where
  | updateBar (c : CandleInput) (now : ℤ)
  | removeExpired (now : ℤ)
  | tick (price : ℚ)
  deriving Repr

/-- Apply one feed/maintenance event. -/
def applyOp (st : RollingVWAP) : VOp → RollingVWAP
  | .updateBar c now => st.updateCandle c now
  | .removeExpired now => st.removeOldCandles now
  | .tick price => st.updatePrice price

/-- Apply a whole sequence of events. -/
def applyOps (st : RollingVWAP) (ops : List VOp) : RollingVWAP :=
  ops.foldl applyOp st

/-- The VWAP as the code computes it from the running totals
(`totalVolume > 0 ? totalPriceVolume / totalVolume : null`, cf. `updateStats`). -/
def vwapFromTotals (st : RollingVWAP) : Option ℚ :=
  if st.totalVolume > 0 then some (st.totalPriceVolume / st.totalVolume) else none

/-- The VWAP recomputed from scratch over exactly the bars currently retained
in the primary window. -/
def vwapFromScratch (st : RollingVWAP) : Option ℚ :=
  if sumVol st.candles > 0 then some (sumPV st.candles / sumVol st.candles) else none

/-- Position direction, the strings `'long'`/`'short'`. -/
inductive PosType where
  | long
  | short
  deriving Repr, DecidableEq

/-- Entry levels, the strings `'Long1'`/`'Long2'`/`'Short1'`/`'Short2'`. -/
inductive EntryLevel where
  | Long1
  | Long2
  | Short1
  | Short2
  deriving Repr, DecidableEq

/-- The four percentile fields of `getDeviationStats()` that the decision
engine reads (`percentile90Percent` etc.); each may be `null` in a raw stats
object, which the engine maps to `0` via `|| 0`. -/
structure Percentiles where
  percentile90Percent : Option ℚ
  percentile95Percent : Option ℚ
  percentile10Percent : Option ℚ
  percentile5Percent : Option ℚ
  deriving Repr, DecidableEq

/-- The slice of the stats snapshot the strategy reads:
`stats.deviationPercent` and `stats.deviationHistory?.stats` (which is `null`
while the deviation history is empty). -/
structure StrategyStats where
  deviationPercent : ℚ
  percentiles : Option Percentiles
  deriving Repr, DecidableEq

/-- JS `x || 0` on a number-or-null field: `null` becomes `0`; a number is
kept (for `x = 0` both readings give `0`, so this is exact). -/
def orZero : Option ℚ → ℚ
  | none => 0
  | some v => v

/-- Strategy constants of the `Strategy` constructor. -/
def SHORT1_THRESHOLD_PERCENT : ℚ := 6/10

/-- Short add-level absolute floor (`0.75`). -/
def SHORT2_THRESHOLD_PERCENT : ℚ := 75/100

/-- Long entry absolute floor (`-0.75`). -/
def LONG1_THRESHOLD_PERCENT : ℚ := -(75/100)

/-- Long add-level absolute floor (`-0.9`). -/
def LONG2_THRESHOLD_PERCENT : ℚ := -(9/10)

/-- Take-profit width (`0.1`). -/
def TAKE_PROFIT_THRESHOLD : ℚ := 1/10

/-- Short absolute stop (`2.25`). -/
def SHORT_STOP_LOSS_ABSOLUTE : ℚ := 225/100

/-- Long absolute stop (`-2.4`). -/
def LONG_STOP_LOSS_ABSOLUTE : ℚ := -(24/10)

/-- Neutral band lower bound (`-0.75`). -/
def NEUTRAL_MIN : ℚ := -(75/100)

/-- Neutral band upper bound (`0.6`). -/
def NEUTRAL_MAX : ℚ := 6/10

/-- One ledger entry record (the object `enterPosition` builds); `level` is
copied from the signal, so it is optional like the signal's field. -/
structure Entry where
  level : Option EntryLevel
  contractCount : ℕ
  sizeInBTC : ℚ
  entryPrice : ℚ
  entryDeviation : ℚ
  entryTime : ℤ
  fee : ℚ
  deriving Repr, DecidableEq

/-- An open position as `enterPosition` builds and the strategy reads it. -/
structure Position where
  type : Option PosType
  totalContractCount : ℕ
  totalSizeInBTC : ℚ
  entryLevels : List (Option EntryLevel)
  entries : List Entry
  avgEntryPrice : ℚ
  totalEntryFees : ℚ
  openedAt : ℤ
  deriving Repr, DecidableEq

/-- Entry-signal `action` field: `'enter'`, `'add'`, the string `'none'`
(returned by the reentry-lock branch), or JS `null` (the other no-entry
returns). -/
inductive EntryAction where
  | enter
  | add
  | noneStr
  | nullAct
  deriving Repr, DecidableEq

/-- An entry signal as returned by `evaluateEntry` (the `reason` string is
omitted; `type` and `level` are present only on enter/add signals). -/
structure EntrySignal where
  action : EntryAction
  type : Option PosType
  level : Option EntryLevel
  deriving Repr, DecidableEq

/-- Exit-signal `action` field: `'close'` or JS `null`. -/
inductive ExitAction where
  | close
  | nullAct
  deriving Repr, DecidableEq

/-- Exit kind attached to a close signal. -/
inductive ExitKind where
  | stop_loss
  | take_profit
  | manual
  deriving Repr, DecidableEq

/-- An exit signal as returned by `evaluateExit` (`reason` omitted). -/
structure ExitSignal where
  action : ExitAction
  exitType : Option ExitKind
  deriving Repr, DecidableEq

/-- The body of `evaluateEntry` after the reentry-lock gate (the lock is
never written past that gate).  Returns the signal only. -/
def evaluateEntryUnlocked (stats : StrategyStats) (pos : Option Position) : EntrySignal :=
  let deviation := stats.deviationPercent
  match stats.percentiles with
  | none => { action := .nullAct, type := none, level := none }
  | some pc =>
    let p90 := orZero pc.percentile90Percent
    let p95 := orZero pc.percentile95Percent
    let p10 := orZero pc.percentile10Percent
    let p5 := orZero pc.percentile5Percent
    match pos with
    | none =>
      let short1Threshold := max p90 SHORT1_THRESHOLD_PERCENT
      if deviation ≥ short1Threshold then
        { action := .enter, type := some .short, level := some .Short1 }
      else
        let long1Threshold := min p10 LONG1_THRESHOLD_PERCENT
        if deviation ≤ long1Threshold then
          { action := .enter, type := some .long, level := some .Long1 }
        else { action := .nullAct, type := none, level := none }
    | some position =>
      if position.type = some .short then
        if position.totalContractCount = 1 ∧ some EntryLevel.Short1 ∈ position.entryLevels then
          let short2Threshold := max p95 SHORT2_THRESHOLD_PERCENT
          if deviation ≥ short2Threshold then
            { action := .add, type := some .short, level := some .Short2 }
          else { action := .nullAct, type := none, level := none }
        else { action := .nullAct, type := none, level := none }
      else if position.type = some .long then
        if position.totalContractCount = 1 ∧ some EntryLevel.Long1 ∈ position.entryLevels then
          let long2Threshold := min p5 LONG2_THRESHOLD_PERCENT
          if deviation ≤ long2Threshold then
            { action := .add, type := some .long, level := some .Long2 }
          else { action := .nullAct, type := none, level := none }
        else { action := .nullAct, type := none, level := none }
      else { action := .nullAct, type := none, level := none }

/-- Entry evaluation, `evaluateEntry(stats, currentPosition)`.  The engine's
only persistent state is `waitingForNeutralReentry`
(`null`/`'short'`/`'long'`), passed in and returned explicitly.  If the lock
is set and the deviation is inside the neutral band, the lock is cleared and
evaluation falls through; if the lock is set and the deviation is outside the
band, all entries are blocked with `action: 'none'`. -/
def evaluateEntry (lock : Option PosType) (stats : StrategyStats) (pos : Option Position) :
    EntrySignal × Option PosType :=
  match lock with
  | some _ =>
    if NEUTRAL_MIN ≤ stats.deviationPercent ∧ stats.deviationPercent ≤ NEUTRAL_MAX then
      (evaluateEntryUnlocked stats pos, none)
    else
      ({ action := .noneStr, type := none, level := none }, lock)
  | none => (evaluateEntryUnlocked stats pos, none)

/-- Exit evaluation, `evaluateExit(stats, currentPosition)`: take profit when
`|deviation| < 0.1` (checked before stop loss), else the direction's absolute
stop (which also sets the reentry lock). -/
def evaluateExit (lock : Option PosType) (stats : StrategyStats) (pos : Option Position) :
    ExitSignal × Option PosType :=
  match pos with
  | none => ({ action := .nullAct, exitType := none }, lock)
  | some position =>
    let deviation := stats.deviationPercent
    match stats.percentiles with
    | none => ({ action := .nullAct, exitType := none }, lock)
    | some _ =>
      if |deviation| < TAKE_PROFIT_THRESHOLD then
        ({ action := .close, exitType := some .take_profit }, lock)
      else if position.type = some .short then
        if deviation ≥ SHORT_STOP_LOSS_ABSOLUTE then
          ({ action := .close, exitType := some .stop_loss }, some .short)
        else ({ action := .nullAct, exitType := none }, lock)
      else if position.type = some .long then
        if deviation ≤ LONG_STOP_LOSS_ABSOLUTE then
          ({ action := .close, exitType := some .stop_loss }, some .long)
        else ({ action := .nullAct, exitType := none }, lock)
      else ({ action := .nullAct, exitType := none }, lock)

/-- Run a sequence of `evaluateEntry` calls, threading the lock and
collecting the returned signals. -/
def runEntries (lock : Option PosType) :
    List (StrategyStats × Option Position) → List EntrySignal × Option PosType
  | [] => ([], lock)
  | (s, p) :: rest =>
    let r := evaluateEntry lock s p
    let rest' := runEntries r.2 rest
    (r.1 :: rest'.1, rest'.2)

/-- Ledger constant: `CONTRACT_SIZE = 0.01` (1 contract = 0.01 BTC). -/
def CONTRACT_SIZE : ℚ := 1/100

/-- Ledger constant: `TRADING_FEE = 0.00065` (0.065% per trade). -/
def TRADING_FEE : ℚ := 65/100000

/-- Ledger constant: `SLIPPAGE = 0.0005` (0.05%). -/
def SLIPPAGE : ℚ := 5/10000

/-- The record `closePosition` builds for the exit side of a round trip. -/
structure ExitRecord where
  exitPrice : ℚ
  exitDeviation : ℚ
  exitTime : ℤ
  exitFee : ℚ
  grossPnL : ℚ
  netPnL : ℚ
  entryLevels : List (Option EntryLevel)
  avgEntryPrice : ℚ
  contractCount : ℕ
  sizeInBTC : ℚ
  deriving Repr, DecidableEq

/-- One record of `this.tradeHistory` (`action: 'enter'` or `action: 'exit'`,
with the signal, the entry/exit record and a copy of the position). -/
inductive TradeLog where
  | enter (signal : EntrySignal) (entry : Entry) (position : Position) (timestamp : ℤ)
  | exit (exitSignal : ExitSignal) (exit : ExitRecord) (position : Position) (timestamp : ℤ)
  deriving Repr, DecidableEq

/-- The mutable state of a `PaperTrading` instance. -/
structure PaperTrading where
  initialBalance : ℚ
  cashBalance : ℚ
  currentPosition : Option Position
  tradeHistory : List TradeLog
  totalRealizedPnL : ℚ
  deriving Repr, DecidableEq

/-- The `PaperTrading` constructor (default initial balance `$10000`). -/
def PaperTrading.init (initialBalance : ℚ := 10000) : PaperTrading where
  initialBalance := initialBalance
  cashBalance := initialBalance
  currentPosition := none
  tradeHistory := []
  totalRealizedPnL := 0

/-- Result of `enterPosition`: either the typed insufficient-funds failure
`{success:false, error:'Insufficient funds', required, available}` or
`{success:true, position, entry}`. -/
inductive EnterResult where
  | failure (required : ℚ) (available : ℚ)
  | success (position : Position) (entry : Entry)
  deriving Repr, DecidableEq

/-- Result of `closePosition`: either `{success:false, error:'No position to
close'}` or `{success:true, closedPosition, exit, realizedPnL}` (the
`closedPosition` merge of position and exit fields is carried as the pair). -/
inductive CloseResult where
  | failure
  | success (position : Position) (exit : ExitRecord) (realizedPnL : ℚ)
  deriving Repr, DecidableEq

/-- Projection of the realized P&L out of a `closePosition` result. -/
def CloseResult.realizedPnL? : CloseResult → Option ℚ
  | .failure => none
  | .success _ _ pnl => some pnl

/-- The total cost of a 1-contract fill that `enterPosition` computes:
notional at the slippage-adjusted execution price, plus the trading fee. -/
def enterTotalCost (signal : EntrySignal) (currentPrice : ℚ) : ℚ :=
  let contractCount : ℕ := 1
  let sizeInBTC : ℚ := (contractCount : ℚ) * CONTRACT_SIZE
  let slippageMultiplier := if signal.type = some PosType.long then 1 + SLIPPAGE else 1 - SLIPPAGE
  let executionPrice := currentPrice * slippageMultiplier
  let orderValue := sizeInBTC * executionPrice
  let fee := orderValue * TRADING_FEE
  orderValue + fee

/-- Order entry, `enterPosition(signal, currentPrice, currentDeviation)`,
with `Date.now()` passed as `now`.  Fixed size of one contract; slippage
worsens the fill (`1+SLIPPAGE` for longs, `1-SLIPPAGE` otherwise); a long
whose notional+fee exceeds the cash balance fails before any mutation.
Otherwise the entry either creates a new position or is appended to the
existing one (recomputing the size-weighted average entry price), cash is
debited (longs: notional+fee; shorts: fee only), and a trade-history record
is appended. -/
def PaperTrading.enterPosition (pt : PaperTrading) (signal : EntrySignal)
    (currentPrice currentDeviation : ℚ) (now : ℤ) : EnterResult × PaperTrading :=
  let contractCount : ℕ := 1
  let sizeInBTC : ℚ := (contractCount : ℚ) * CONTRACT_SIZE
  let slippageMultiplier := if signal.type = some PosType.long then 1 + SLIPPAGE else 1 - SLIPPAGE
  let executionPrice := currentPrice * slippageMultiplier
  let orderValue := sizeInBTC * executionPrice
  let fee := orderValue * TRADING_FEE
  let totalCost := orderValue + fee
  if signal.type = some PosType.long ∧ pt.cashBalance < totalCost then
    (.failure totalCost pt.cashBalance, pt)
  else
    let entry : Entry :=
      { level := signal.level, contractCount := contractCount, sizeInBTC := sizeInBTC
        entryPrice := executionPrice, entryDeviation := currentDeviation
        entryTime := now, fee := fee }
    match pt.currentPosition with
    | none =>
      let newPos : Position :=
        { type := signal.type, totalContractCount := contractCount
          totalSizeInBTC := sizeInBTC, entryLevels := [signal.level]
          entries := [entry], avgEntryPrice := executionPrice
          totalEntryFees := fee, openedAt := now }
      let cash :=
        if signal.type = some PosType.long then pt.cashBalance - totalCost
        else pt.cashBalance - fee
      let log := TradeLog.enter signal entry newPos now
      (.success newPos entry,
        { pt with
          currentPosition := some newPos,
          cashBalance := cash,
          tradeHistory := pt.tradeHistory ++ [log] })
    | some pos =>
      let entries' := pos.entries ++ [entry]
      let totalSize' := pos.totalSizeInBTC + sizeInBTC
      let totalValue := (entries'.map (fun e => e.entryPrice * e.sizeInBTC)).sum
      let newPos : Position :=
        { pos with
          entryLevels := pos.entryLevels ++ [signal.level]
          entries := entries'
          totalContractCount := pos.totalContractCount + contractCount
          totalSizeInBTC := totalSize'
          avgEntryPrice := totalValue / totalSize'
          totalEntryFees := pos.totalEntryFees + fee }
      let cash :=
        if signal.type = some PosType.long then pt.cashBalance - totalCost
        else pt.cashBalance - fee
      let log := TradeLog.enter signal entry newPos now
      (.success newPos entry,
        { pt with
          currentPosition := some newPos,
          cashBalance := cash,
          tradeHistory := pt.tradeHistory ++ [log] })

/-- Order exit, `closePosition(exitSignal, currentPrice, currentDeviation)`,
with `Date.now()` passed as `now`.  Fails when no position is open; otherwise
computes the slippage-adjusted fill, gross and net P&L, credits cash (longs:
exit notional minus exit fee; shorts: entry notional minus exit fee),
increments lifetime realized P&L, appends a trade-history record and clears
the position. -/
def PaperTrading.closePosition (pt : PaperTrading) (exitSignal : ExitSignal)
    (currentPrice currentDeviation : ℚ) (now : ℤ) : CloseResult × PaperTrading :=
  match pt.currentPosition with
  | none => (.failure, pt)
  | some position =>
    let sizeInBTC := position.totalSizeInBTC
    let slippageMultiplier :=
      if position.type = some PosType.long then 1 - SLIPPAGE else 1 + SLIPPAGE
    let executionPrice := currentPrice * slippageMultiplier
    let grossPnL :=
      if position.type = some PosType.long then
        (executionPrice - position.avgEntryPrice) * sizeInBTC
      else (position.avgEntryPrice - executionPrice) * sizeInBTC
    let exitValue := sizeInBTC * executionPrice
    let exitFee := exitValue * TRADING_FEE
    let netPnL := grossPnL - position.totalEntryFees - exitFee
    let cash :=
      if position.type = some PosType.long then pt.cashBalance + (exitValue - exitFee)
      else pt.cashBalance + (position.avgEntryPrice * sizeInBTC - exitFee)
    let exitRec : ExitRecord :=
      { exitPrice := executionPrice, exitDeviation := currentDeviation, exitTime := now
        exitFee := exitFee, grossPnL := grossPnL, netPnL := netPnL
        entryLevels := position.entryLevels, avgEntryPrice := position.avgEntryPrice
        contractCount := position.totalContractCount, sizeInBTC := sizeInBTC }
    let log := TradeLog.exit exitSignal exitRec position now
    (.success position exitRec netPnL,
      { pt with
        cashBalance := cash,
        totalRealizedPnL := pt.totalRealizedPnL + netPnL,
        tradeHistory := pt.tradeHistory ++ [log],
        currentPosition := none })

/-- One stats snapshot as consumed by the `server.js` `update` handler: the
strategy slice plus `stats.currentPrice` (passed on to the ledger), with the
wall clock. -/
structure PipelineEvent where
  stats : StrategyStats
  currentPrice : ℚ
  now : ℤ
  deriving Repr, DecidableEq

/-- Exit half of the `vwapTracker.on('update', ...)` handler with the
algorithm running: if a position is open, evaluate exit conditions and close
on a `'close'` signal. -/
def exitPhase (lock : Option PosType) (pt : PaperTrading) (ev : PipelineEvent) :
    Option PosType × PaperTrading :=
  match pt.currentPosition with
  | some _ =>
    let r := evaluateExit lock ev.stats pt.currentPosition
    if r.1.action = ExitAction.close then
      (r.2, (pt.closePosition r.1 ev.currentPrice ev.stats.deviationPercent ev.now).2)
    else (r.2, pt)
  | none => (lock, pt)

/-- Entry half of the handler: evaluate entry conditions on the (possibly
just-cleared) position and call `enterPosition` on an `'enter'` or `'add'`
signal (the two branches of the handler call it with the same arguments). -/
def entryPhase (lock : Option PosType) (pt : PaperTrading) (ev : PipelineEvent) :
    Option PosType × PaperTrading :=
  let r2 := evaluateEntry lock ev.stats pt.currentPosition
  if r2.1.action = EntryAction.enter ∨ r2.1.action = EntryAction.add then
    (r2.2, (pt.enterPosition r2.1 ev.currentPrice ev.stats.deviationPercent ev.now).2)
  else (r2.2, pt)

/-- The decision-plus-ledger step of the `update` handler with the algorithm
running: the exit phase followed by the entry phase.  (The preceding
`updatePosition` display call mutates no ledger state and is omitted.) -/
def processUpdate (lock : Option PosType) (pt : PaperTrading) (ev : PipelineEvent) :
    Option PosType × PaperTrading :=
  let step1 := exitPhase lock pt ev
  entryPhase step1.1 step1.2 ev

/-- Run the per-snapshot pipeline over a whole event sequence, starting from
a fresh strategy (no lock) and a fresh `$10000` ledger. -/
def runPipeline (events : List PipelineEvent) : Option PosType × PaperTrading :=
  events.foldl (fun s ev => processUpdate s.1 s.2 ev) (none, PaperTrading.init 10000)

/-- The position-shape invariant of claim C9, as a predicate on the optional
current position: an existing position's `totalContractCount` equals the
number of its entries and never exceeds 2. -/
def PositionOk (po : Option Position) : Prop :=
  ∀ pos, po = some pos →
    pos.totalContractCount = pos.entries.length ∧ pos.totalContractCount ≤ 2

/-- Concrete short position used in counterexamples/witnesses. -/
def shortPos1 : Position where
  type := some .short
  totalContractCount := 1
  totalSizeInBTC := 1/100
  entryLevels := [some .Short1]
  entries := [{ level := some .Short1, contractCount := 1, sizeInBTC := 1/100
                entryPrice := 89955, entryDeviation := 1, entryTime := 0, fee := 233883/400000 }]
  avgEntryPrice := 89955
  totalEntryFees := 233883/400000
  openedAt := 0

/-- The C6 round trip: enter a long of one contract at price 90000 on a fresh
default ledger. -/
def c6AfterEnter : PaperTrading :=
  ((PaperTrading.init 10000).enterPosition
    { action := .enter, type := some .long, level := some .Long1 } 90000 (-(8/10)) 0).2

/-- The C6 round trip: close the long at price 91000. -/
def c6CloseResult : CloseResult × PaperTrading :=
  c6AfterEnter.closePosition { action := .close, exitType := some .take_profit } 91000 (5/100) 0

/-- If `find?` succeeds, `eraseP` removes exactly one element. -/
theorem length_eraseP_of_find? {p : Candle → Bool} :
    ∀ {l : List Candle} {c : Candle}, l.find? p = some c →
      (l.eraseP p).length + 1 = l.length := by
  intro l
  induction l with
  | nil => intro c h; simp at h
  | cons a l ih =>
    intro c h
    cases hpa : p a with
    | true => simp [List.eraseP_cons, hpa]
    | false =>
      rw [List.find?_cons, hpa] at h
      simpa [List.eraseP_cons, hpa] using ih h

/-- After a successful `find?`, `eraseP` subtracts exactly the found element
from any mapped sum. -/
theorem sum_map_eraseP_of_find? {p : Candle → Bool} (f : Candle → ℚ) :
    ∀ {l : List Candle} {c : Candle}, l.find? p = some c →
      ((l.eraseP p).map f).sum = (l.map f).sum - f c := by
  intro l
  induction l with
  | nil => intro c h; simp at h
  | cons a l ih =>
    intro c h
    cases hpa : p a with
    | true =>
      rw [List.find?_cons, hpa] at h
      simp only [Option.some.injEq] at h
      subst h
      simp [List.eraseP_cons, hpa]
    | false =>
      rw [List.find?_cons, hpa] at h
      simp only [List.eraseP_cons, hpa, cond_false, List.map_cons, List.sum_cons, ih h]
      ring

/-- For a nonempty candle list, `removeOldest` strictly shrinks it (each
iteration of the budget loop removes exactly one candle). -/
theorem removeOldest_length_lt (st : RollingVWAP) (h : st.candles ≠ []) :
    st.removeOldest.candles.length < st.candles.length := by
  unfold RollingVWAP.removeOldest
  cases hmin : (st.candles.map (·.start)).min? with
  | none =>
    cases hc : st.candles with
    | nil => exact absurd hc h
    | cons a l => rw [hc] at hmin; simp [List.min?] at hmin
  | some m =>
    have hmem : m ∈ st.candles.map (·.start) :=
      List.min?_mem (fun a b => min_choice a b) hmin
    obtain ⟨c, hc, hcs⟩ := List.mem_map.mp hmem
    have hfind : (st.candles.find? (fun c => c.start = m)).isSome := by
      rw [List.find?_isSome]
      exact ⟨c, hc, by simp [hcs]⟩
    dsimp only
    cases hf : findCandle st.candles m with
    | none =>
      rw [findCandle] at hf
      rw [hf] at hfind
      simp at hfind
    | some oldCandle =>
      simp only [hf]
      rw [findCandle] at hf
      have := length_eraseP_of_find? hf
      omega

/-- Budget-loop iterations keep `maxCandles`. -/
theorem removeOldest_maxCandles (st : RollingVWAP) :
    st.removeOldest.maxCandles = st.maxCandles := by
  unfold RollingVWAP.removeOldest
  cases (st.candles.map (·.start)).min? with
  | none => rfl
  | some m =>
    dsimp only
    cases findCandle st.candles m with
    | none => rfl
    | some c => rfl

theorem enforceMaxAux_drains :
    ∀ (fuel : ℕ) (st : RollingVWAP), st.candles.length ≤ fuel →
      (RollingVWAP.enforceMaxAux fuel st).candles.length ≤ st.maxCandles := by
  intro fuel
  induction fuel with
  | zero =>
    intro st h
    rw [RollingVWAP.enforceMaxAux]
    omega
  | succ n ih =>
    intro st h
    rw [RollingVWAP.enforceMaxAux]
    split
    · rename_i hgt
      have hne : st.candles ≠ [] := by
        intro hnil
        rw [hnil] at hgt
        simp at hgt
      have hlt := removeOldest_length_lt st hne
      have := ih st.removeOldest (by omega)
      rw [removeOldest_maxCandles] at this
      exact this
    · omega

/-- Certificate that fuel `st.candles.length` reproduces the
`while (size > maxCandles)` loop exactly: at exit the loop condition is
false. -/
theorem enforceMax_drains (st : RollingVWAP) :
    st.enforceMax.candles.length ≤ st.maxCandles :=
  enforceMaxAux_drains st.candles.length st (le_refl _)

/-- Second certificate for the fuel embedding: any fuel at least
`st.candles.length` computes the same result, so `enforceMax` is exactly the
limit of the `while` loop. -/
theorem enforceMaxAux_fuel_irrelevant :
    ∀ (fuel1 fuel2 : ℕ) (st : RollingVWAP), st.candles.length ≤ fuel1 →
      st.candles.length ≤ fuel2 →
      RollingVWAP.enforceMaxAux fuel1 st = RollingVWAP.enforceMaxAux fuel2 st := by
  intro fuel1
  induction fuel1 with
  | zero =>
    intro fuel2 st h1 h2
    cases fuel2 with
    | zero => rfl
    | succ n =>
      rw [RollingVWAP.enforceMaxAux, RollingVWAP.enforceMaxAux]
      rw [if_neg (by omega)]
  | succ n1 ih =>
    intro fuel2 st h1 h2
    cases fuel2 with
    | zero =>
      rw [RollingVWAP.enforceMaxAux, RollingVWAP.enforceMaxAux]
      rw [if_neg (by omega)]
    | succ n2 =>
      rw [RollingVWAP.enforceMaxAux, RollingVWAP.enforceMaxAux]
      by_cases hgt : st.candles.length > st.maxCandles
      · rw [if_pos hgt, if_pos hgt]
        have hne : st.candles ≠ [] := by
          intro hnil
          rw [hnil] at hgt
          simp at hgt
        have hlt := removeOldest_length_lt st hne
        exact ih n2 st.removeOldest (by omega) (by omega)
      · rw [if_neg hgt, if_neg hgt]

theorem sum_map_filter_not (f : Candle → ℚ) (p : Candle → Bool) (l : List Candle) :
    ((l.filter (fun c => !(p c))).map f).sum
      = (l.map f).sum - ((l.filter p).map f).sum := by
  induction l with
  | nil => simp
  | cons a l ih =>
    cases hpa : p a with
    | true => simp [List.filter_cons, hpa, ih]
    | false =>
      simp [List.filter_cons, hpa, ih]
      ring

theorem consistent_pruneByAge (st : RollingVWAP) (now : ℤ) (h : Consistent st) :
    Consistent (st.pruneByAge now) := by
  obtain ⟨h1, h2⟩ := h
  simp only [Consistent, RollingVWAP.pruneByAge, decide_not]
  constructor
  · rw [h1]
    unfold sumPV
    rw [sum_map_filter_not]
  · rw [h2]
    unfold sumVol
    rw [sum_map_filter_not]

theorem consistent_removeOldest (st : RollingVWAP) (h : Consistent st) :
    Consistent st.removeOldest := by
  obtain ⟨h1, h2⟩ := h
  unfold RollingVWAP.removeOldest
  cases hmin : (st.candles.map (·.start)).min? with
  | none => exact ⟨h1, h2⟩
  | some m =>
    dsimp only
    cases hf : findCandle st.candles m with
    | none => exact ⟨h1, h2⟩
    | some oldCandle =>
      simp only [hf]
      rw [findCandle] at hf
      constructor
      · show st.totalPriceVolume - oldCandle.priceVolume = sumPV _
        rw [h1]
        unfold sumPV
        rw [sum_map_eraseP_of_find? _ hf]
      · show st.totalVolume - oldCandle.volume = sumVol _
        rw [h2]
        unfold sumVol
        rw [sum_map_eraseP_of_find? _ hf]

theorem consistent_enforceMaxAux :
    ∀ (fuel : ℕ) (st : RollingVWAP), Consistent st →
      Consistent (RollingVWAP.enforceMaxAux fuel st) := by
  intro fuel
  induction fuel with
  | zero => intro st h; exact h
  | succ n ih =>
    intro st h
    rw [RollingVWAP.enforceMaxAux]
    split
    · exact ih st.removeOldest (consistent_removeOldest st h)
    · exact h

theorem consistent_enforceMax (st : RollingVWAP) (h : Consistent st) :
    Consistent st.enforceMax :=
  consistent_enforceMaxAux st.candles.length st h

theorem consistent_pruneDevHistory (st : RollingVWAP) (now : ℤ) (h : Consistent st) :
    Consistent (st.pruneDevHistory now) := h

theorem consistent_removeOldCandles (st : RollingVWAP) (now : ℤ) (h : Consistent st) :
    Consistent (st.removeOldCandles now) :=
  consistent_pruneDevHistory _ _ (consistent_enforceMax _ (consistent_pruneByAge _ _ h))

theorem consistent_updateStats (st : RollingVWAP) (h : Consistent st) :
    Consistent st.updateStats := by
  unfold RollingVWAP.updateStats
  split
  · exact h
  · exact h

theorem consistent_recordDeviation (st : RollingVWAP) (now : ℤ) (h : Consistent st) :
    Consistent (st.recordDeviation now) := by
  unfold RollingVWAP.recordDeviation
  split
  · split
    · exact h
    · exact h
  · exact h

theorem sum_map_setCandle_found (f : Candle → ℚ) :
    ∀ (cs : List Candle) (c old : Candle), findCandle cs c.start = some old →
      ((setCandle cs c).map f).sum = (cs.map f).sum - f old + f c := by
  intro cs
  induction cs with
  | nil => intro c old h; simp [findCandle] at h
  | cons a rest ih =>
    intro c old h
    rw [findCandle] at h
    by_cases ha : a.start = c.start
    · rw [List.find?_cons_of_pos _ (by simpa using ha)] at h
      simp only [Option.some.injEq] at h
      subst h
      simp [setCandle, ha]
      ring
    · rw [List.find?_cons_of_neg _ (by simpa using ha)] at h
      have := ih c old (by rw [findCandle]; exact h)
      simp [setCandle, ha, this]
      ring

theorem sum_map_setCandle_notfound (f : Candle → ℚ) :
    ∀ (cs : List Candle) (c : Candle), findCandle cs c.start = none →
      ((setCandle cs c).map f).sum = (cs.map f).sum + f c := by
  intro cs
  induction cs with
  | nil => intro c _; simp [setCandle]
  | cons a rest ih =>
    intro c h
    rw [findCandle] at h
    by_cases ha : a.start = c.start
    · rw [List.find?_cons_of_pos _ (by simpa using ha)] at h
      simp at h
    · rw [List.find?_cons_of_neg _ (by simpa using ha)] at h
      have := ih c (by rw [findCandle]; exact h)
      simp [setCandle, ha, this]
      ring

theorem removeOldest_candles_subset (st : RollingVWAP) :
    ∀ c ∈ st.removeOldest.candles, c ∈ st.candles := by
  unfold RollingVWAP.removeOldest
  cases (st.candles.map (·.start)).min? with
  | none => intro c hc; exact hc
  | some m =>
    dsimp only
    cases findCandle st.candles m with
    | none => intro c hc; exact hc
    | some oldCandle =>
      intro c hc
      exact (List.eraseP_sublist st.candles).subset hc

theorem enforceMaxAux_candles_subset :
    ∀ (fuel : ℕ) (st : RollingVWAP) (c : Candle),
      c ∈ (RollingVWAP.enforceMaxAux fuel st).candles → c ∈ st.candles := by
  intro fuel
  induction fuel with
  | zero => intro st c hc; exact hc
  | succ n ih =>
    intro st c hc
    rw [RollingVWAP.enforceMaxAux] at hc
    by_cases hgt : st.candles.length > st.maxCandles
    · rw [if_pos hgt] at hc
      exact removeOldest_candles_subset st c (ih st.removeOldest c hc)
    · rw [if_neg hgt] at hc
      exact hc

theorem removeOldCandles_candles_subset (st : RollingVWAP) (now : ℤ) :
    ∀ c ∈ (st.removeOldCandles now).candles, c ∈ st.candles := by
  intro c hc
  have h1 : c ∈ (st.pruneByAge now).enforceMax.candles := hc
  have h2 : c ∈ (st.pruneByAge now).candles :=
    enforceMaxAux_candles_subset _ _ c h1
  exact List.mem_of_mem_filter h2

theorem consistent_updateCandle (st : RollingVWAP) (c : CandleInput) (now : ℤ)
    (h : Consistent st) : Consistent (st.updateCandle c now) := by
  unfold RollingVWAP.updateCandle
  apply consistent_recordDeviation
  apply consistent_updateStats
  cases hf : findCandle st.candles c.start with
  | some oldCandle =>
    simp only [hf]
    obtain ⟨h1, h2⟩ := h
    constructor
    · show st.totalPriceVolume - oldCandle.priceVolume + _ = sumPV (setCandle st.candles _)
      unfold sumPV
      rw [sum_map_setCandle_found _ st.candles _ oldCandle hf]
      rw [h1]
      unfold sumPV
      dsimp only
    · show st.totalVolume - oldCandle.volume + _ = sumVol (setCandle st.candles _)
      unfold sumVol
      rw [sum_map_setCandle_found _ st.candles _ oldCandle hf]
      rw [h2]
      unfold sumVol
      dsimp only
  | none =>
    simp only [hf]
    have hcons : Consistent (st.removeOldCandles now) := consistent_removeOldCandles st now h
    obtain ⟨h1, h2⟩ := hcons
    have hnotin : findCandle (st.removeOldCandles now).candles c.start = none := by
      rw [findCandle, List.find?_eq_none]
      intro x hx
      have hxin : x ∈ st.candles := removeOldCandles_candles_subset st now x hx
      rw [findCandle, List.find?_eq_none] at hf
      exact hf x hxin
    constructor
    · show (st.removeOldCandles now).totalPriceVolume + _ = sumPV (setCandle _ _)
      unfold sumPV
      rw [sum_map_setCandle_notfound _ _ _ hnotin]
      rw [h1]
      unfold sumPV
      dsimp only
    · show (st.removeOldCandles now).totalVolume + _ = sumVol (setCandle _ _)
      unfold sumVol
      rw [sum_map_setCandle_notfound _ _ _ hnotin]
      rw [h2]
      unfold sumVol
      dsimp only

theorem consistent_applyOp (st : RollingVWAP) (op : VOp) (h : Consistent st) :
    Consistent (applyOp st op) := by
  cases op with
  | updateBar c now => exact consistent_updateCandle st c now h
  | removeExpired now => exact consistent_removeOldCandles st now h
  | tick price => exact h

theorem consistent_applyOps (ops : List VOp) :
    ∀ st : RollingVWAP, Consistent st → Consistent (applyOps st ops) := by
  induction ops with
  | nil => intro st h; exact h
  | cons op rest ih =>
    intro st h
    exact ih (applyOp st op) (consistent_applyOp st op h)

theorem consistent_init (wh dh : ℕ) : Consistent (RollingVWAP.init wh dh) := by
  constructor <;> rfl

/-- C1: for every sequence of `updateCandle` calls — including revisions of an
existing bar with the same `start`, evictions by age and by the max-bar
budget — interleaved with independent `removeOldCandles` passes and ticker
updates, the running totals `totalPriceVolume`/`totalVolume` equal the sums
over exactly the retained bars, and hence the VWAP computed from the running
totals equals the VWAP recomputed from scratch over the retained bar set. -/
theorem c1_running_total_consistency (wh dh : ℕ) (ops : List VOp) :
    Consistent (applyOps (RollingVWAP.init wh dh) ops) ∧
      vwapFromTotals (applyOps (RollingVWAP.init wh dh) ops)
        = vwapFromScratch (applyOps (RollingVWAP.init wh dh) ops) := by
  have h : Consistent (applyOps (RollingVWAP.init wh dh) ops) :=
    consistent_applyOps ops _ (consistent_init wh dh)
  refine ⟨h, ?_⟩
  obtain ⟨h1, h2⟩ := h
  unfold vwapFromTotals vwapFromScratch
  rw [h1, h2]

/-- C4: `percentile` returns `null` on an empty list; for any nonnegative `p`
it returns the element at index `floor(p/100*n)` clamped to `n-1`
(nearest-rank, no interpolation); and on the ascending percent-deviation list
`[-0.9, -0.75, 0.7, 0.85]`, `percentile(-, 90)` selects index
`floor(0.9*4) = 3` and returns `0.85`. -/
theorem c4_percentile_nearest_rank :
    (∀ p : ℚ, percentile [] p = none) ∧
    (∀ (arr : List ℚ) (p : ℚ), 0 ≤ p → percentile arr p = nearestRankSpec arr p) ∧
    percentile [-(9/10), -(3/4), 7/10, 17/20] 90 = some (17/20) := by
  refine ⟨fun p => rfl, ?_, by norm_num [percentile]; rfl⟩
  intro arr p hp
  unfold percentile nearestRankSpec
  by_cases hlen : arr.length = 0
  · simp [hlen]
  · rw [if_neg hlen, if_neg hlen]
    have hn : 1 ≤ arr.length := Nat.one_le_iff_ne_zero.mpr hlen
    have hidx : (0:ℤ) ≤ Int.floor (p / 100 * arr.length) := by
      apply Int.floor_nonneg.mpr
      have : (0:ℚ) ≤ (arr.length : ℚ) := by positivity
      exact mul_nonneg (div_nonneg hp (by norm_num)) this
    have h0 : (0:ℤ) ≤ min (Int.floor (p / 100 * arr.length)) ((arr.length : ℤ) - 1) := by
      apply le_min hidx
      omega
    rw [if_pos h0]
    congr 1
    omega

/-- Witness for C4 at concrete inputs. -/
theorem c4_percentile_nearest_rank_witness :
    percentile [5, 7] 90 = nearestRankSpec [5, 7] 90 :=
  c4_percentile_nearest_rank.2.1 [5, 7] 90 (by norm_num)

/-- Membership after the in-place replacement
`this.deviationHistory[existingIndex] = snapshot`. -/
theorem mem_replaceFirstSnap {d : DevSnapshot} :
    ∀ (l : List DevSnapshot) (ts : ℤ) (s : DevSnapshot),
      d ∈ replaceFirstSnap l ts s → d ∈ l ∨ d = s := by
  intro l
  induction l with
  | nil => intro ts s h; simp [replaceFirstSnap] at h
  | cons a rest ih =>
    intro ts s h
    rw [replaceFirstSnap] at h
    by_cases ha : a.timestamp = ts
    · rw [if_pos ha] at h
      rcases List.mem_cons.mp h with h | h
      · right; exact h
      · left; exact List.mem_cons_of_mem a h
    · rw [if_neg ha] at h
      rcases List.mem_cons.mp h with h | h
      · left; exact h ▸ List.mem_cons_self a rest
      · rcases ih ts s h with h | h
        · left; exact List.mem_cons_of_mem a h
        · right; exact h

/-- C10: the deviation getters apply a JS-truthiness guard — `getDeviation`
and `getDeviationPercent` return `null` not only when VWAP or current price
is absent but also when either is exactly `0`, so the division in
`getDeviationPercent` never runs with a zero divisor; under the same
condition `recordDeviation` is a no-op, and every snapshot `recordDeviation`
ever adds to the deviation history has a nonzero VWAP. -/
theorem c10_deviation_falsiness_guard :
    (∀ st : RollingVWAP,
        st.currentVWAP = none ∨ st.currentVWAP = some 0 ∨
          st.currentPrice = none ∨ st.currentPrice = some 0 →
        st.getDeviation = none ∧ st.getDeviationPercent = none ∧
          ∀ now : ℤ, st.recordDeviation now = st) ∧
    (∀ (st : RollingVWAP) (r : ℚ), st.getDeviationPercent = some r →
        ∃ v : ℚ, st.currentVWAP = some v ∧ v ≠ 0) ∧
    (∀ (st : RollingVWAP) (now : ℤ) (d : DevSnapshot),
        d ∈ (st.recordDeviation now).deviationHistory →
        d ∈ st.deviationHistory ∨ d.vwap ≠ 0) := by
  refine ⟨?_, ?_, ?_⟩
  · intro st h
    rcases hv : st.currentVWAP with _ | v <;> rcases hq : st.currentPrice with _ | q
    · exact ⟨by simp [RollingVWAP.getDeviation, hv, hq],
        by simp [RollingVWAP.getDeviationPercent, hv, hq],
        fun now => by simp [RollingVWAP.recordDeviation, hv, hq]⟩
    · exact ⟨by simp [RollingVWAP.getDeviation, hv, hq],
        by simp [RollingVWAP.getDeviationPercent, hv, hq],
        fun now => by simp [RollingVWAP.recordDeviation, hv, hq]⟩
    · exact ⟨by simp [RollingVWAP.getDeviation, hv, hq],
        by simp [RollingVWAP.getDeviationPercent, hv, hq],
        fun now => by simp [RollingVWAP.recordDeviation, hv, hq]⟩
    · have hz : v = 0 ∨ q = 0 := by
        rcases h with h | h | h | h
        · rw [hv] at h; exact absurd h (by simp)
        · rw [hv] at h; left; exact (Option.some.injEq _ _).mp h
        · rw [hq] at h; exact absurd h (by simp)
        · rw [hq] at h; right; exact (Option.some.injEq _ _).mp h
      refine ⟨by simp [RollingVWAP.getDeviation, hv, hq, hz],
        by simp [RollingVWAP.getDeviationPercent, hv, hq, hz], fun now => ?_⟩
      rcases hc : st.currentCandleStart with _ | ts
      · simp [RollingVWAP.recordDeviation, hv, hq, hc]
      · have : v = 0 ∨ q = 0 ∨ ts = 0 := by tauto
        simp [RollingVWAP.recordDeviation, hv, hq, hc, this]
  · intro st r h
    rcases hv : st.currentVWAP with _ | v <;> rcases hq : st.currentPrice with _ | q <;>
      rw [RollingVWAP.getDeviationPercent, hv, hq] at h
    · simp at h
    · simp at h
    · simp at h
    · dsimp only at h
      by_cases hz : v = 0 ∨ q = 0
      · rw [if_pos hz] at h; simp at h
      · exact ⟨v, rfl, fun h0 => hz (Or.inl h0)⟩
  · intro st now d hd
    rcases hv : st.currentVWAP with _ | v <;> rcases hq : st.currentPrice with _ | q <;>
      rw [RollingVWAP.recordDeviation, hv, hq] at hd
    · left; exact hd
    · left; exact hd
    · left; exact hd
    · rcases hc : st.currentCandleStart with _ | ts <;> rw [hc] at hd
      · left; exact hd
      · dsimp only at hd
        by_cases hz : v = 0 ∨ q = 0 ∨ ts = 0
        · rw [if_pos hz] at hd; left; exact hd
        · rw [if_neg hz] at hd
          have hd' := List.mem_of_mem_filter hd
          have hvne : v ≠ 0 := fun h0 => hz (Or.inl h0)
          by_cases hidx :
              (st.deviationHistory.findIdx? (fun s => s.timestamp = ts)).isSome
          · rw [if_pos hidx] at hd'
            rcases mem_replaceFirstSnap st.deviationHistory ts _ hd' with h | h
            · left; exact h
            · right; rw [h]; exact hvne
          · rw [if_neg hidx] at hd'
            rw [List.mem_mergeSort] at hd'
            rcases List.mem_append.mp hd' with h | h
            · left; exact h
            · right
              rw [List.mem_singleton.mp h]
              exact hvne

/-- Witness for C10 at a concrete state. -/
theorem c10_deviation_falsiness_guard_witness :
    ({ RollingVWAP.init 12 72 with
        currentVWAP := some 0,
        currentPrice := some 5 } : RollingVWAP).getDeviation = none :=
  (c10_deviation_falsiness_guard.1 _ (Or.inr (Or.inl rfl))).1

/-- C2: a short stop-loss (`evaluateExit` on a short position with deviation
stats available and deviation `≥ 2.25`) signals `close / stop_loss` and sets
the reentry lock to `'short'`; while any lock is set, every sequence of
`evaluateEntry` calls whose deviations all lie outside the neutral band
`[-0.75, 0.6]` yields only `action:'none'` signals and leaves the lock set;
and the first `evaluateEntry` call that observes a deviation inside the band
behaves exactly like an unlocked call (the lock is cleared and evaluation
falls through in that same call). -/
theorem c2_reentry_lockout :
    (∀ (lock : Option PosType) (stats : StrategyStats) (pos : Position),
        pos.type = some PosType.short →
        stats.percentiles.isSome →
        stats.deviationPercent ≥ 225/100 →
        evaluateExit lock stats (some pos)
          = ({ action := .close, exitType := some .stop_loss }, some PosType.short)) ∧
    (∀ (d : PosType) (calls : List (StrategyStats × Option Position)),
        (∀ c ∈ calls,
          c.1.deviationPercent < -(75/100) ∨ (6/10 : ℚ) < c.1.deviationPercent) →
        (∀ sig ∈ (runEntries (some d) calls).1, sig.action = EntryAction.noneStr) ∧
          (runEntries (some d) calls).2 = some d) ∧
    (∀ (d : PosType) (stats : StrategyStats) (pos : Option Position),
        -(75/100) ≤ stats.deviationPercent → stats.deviationPercent ≤ 6/10 →
        evaluateEntry (some d) stats pos = evaluateEntry none stats pos) := by
  refine ⟨?_, ?_, ?_⟩
  · intro lock stats pos htype hps hdev
    obtain ⟨pc, hpc⟩ := Option.isSome_iff_exists.mp hps
    have habs : ¬ |stats.deviationPercent| < TAKE_PROFIT_THRESHOLD := by
      rw [not_lt, TAKE_PROFIT_THRESHOLD]
      calc (1/10 : ℚ) ≤ 225/100 := by norm_num
        _ ≤ stats.deviationPercent := hdev
        _ ≤ |stats.deviationPercent| := le_abs_self _
    simp only [evaluateExit, hpc]
    rw [if_neg habs, if_pos htype, if_pos (by rw [SHORT_STOP_LOSS_ABSOLUTE]; exact hdev)]
  · intro d calls
    induction calls with
    | nil =>
      intro _
      exact ⟨fun sig hsig => absurd hsig (List.not_mem_nil sig), rfl⟩
    | cons c rest ih =>
      intro h
      have hc := h c (List.mem_cons_self c rest)
      have hout : ¬ (NEUTRAL_MIN ≤ c.1.deviationPercent ∧
          c.1.deviationPercent ≤ NEUTRAL_MAX) := by
        rw [NEUTRAL_MIN, NEUTRAL_MAX]
        rcases hc with hc | hc
        · intro hand; exact absurd hand.1 (not_le.mpr hc)
        · intro hand; exact absurd hand.2 (not_le.mpr hc)
      have hstep : evaluateEntry (some d) c.1 c.2
          = ({ action := .noneStr, type := none, level := none }, some d) := by
        obtain ⟨s, p⟩ := c
        simp only [evaluateEntry]
        rw [if_neg hout]
      have hrest := ih (fun c2 hc2 => h c2 (List.mem_cons_of_mem c hc2))
      obtain ⟨s, p⟩ := c
      rw [runEntries]
      dsimp only
      rw [hstep]
      refine ⟨?_, hrest.2⟩
      intro sig hsig
      rcases List.mem_cons.mp hsig with hsig | hsig
      · rw [hsig]
      · exact hrest.1 sig hsig
  · intro d stats pos h1 h2
    simp only [evaluateEntry]
    rw [if_pos (by rw [NEUTRAL_MIN, NEUTRAL_MAX]; exact ⟨h1, h2⟩)]

/-- Witness for C2 at concrete inputs: a short stop at deviation `2.25` sets
the lock; one blocked call at deviation `1` keeps it; a call at deviation `0`
behaves like an unlocked call. -/
theorem c2_reentry_lockout_witness :
    evaluateExit none ⟨9/4, some ⟨none, none, none, none⟩⟩ (some shortPos1)
        = ({ action := .close, exitType := some .stop_loss }, some PosType.short)
      ∧ (runEntries (some PosType.short) [(⟨1, none⟩, none)]).2 = some PosType.short
      ∧ evaluateEntry (some PosType.short) ⟨0, none⟩ none
          = evaluateEntry none ⟨0, none⟩ none :=
  ⟨c2_reentry_lockout.1 none ⟨9/4, some ⟨none, none, none, none⟩⟩ shortPos1 rfl rfl
      (by norm_num),
    (c2_reentry_lockout.2.1 PosType.short [(⟨1, none⟩, none)]
      (by
        intro c hc
        rw [List.mem_singleton] at hc
        subst hc
        right
        norm_num)).2,
    c2_reentry_lockout.2.2 PosType.short ⟨0, none⟩ none (by norm_num) (by norm_num)⟩

/-- Counterexample to C3 as stated: with an open short position and deviation
`0` (so `|deviation| < 0.1`) but an empty deviation history
(`stats.deviationHistory?.stats` is `null`), `evaluateExit` returns the
insufficient-history no-op, not a take-profit close. -/
theorem c3_take_profit_counterexample :
    ¬ ((evaluateExit none ⟨0, none⟩ (some shortPos1)).1.action = ExitAction.close) := by
  decide

/-- C3 amended: for every open position (long or short), every lock state and
every snapshot with deviation statistics available and
`|deviationPercent| < 0.1`, `evaluateExit` signals `close / take_profit`
regardless of the position's direction, and the reentry lock is left
unchanged (only an absolute stop-loss sets it). -/
theorem c3_take_profit (lock : Option PosType) (stats : StrategyStats)
    (pc : Percentiles) (pos : Position)
    (hps : stats.percentiles = some pc)
    (habs : |stats.deviationPercent| < 1/10) :
    evaluateExit lock stats (some pos)
      = ({ action := .close, exitType := some .take_profit }, lock) := by
  simp only [evaluateExit, hps]
  rw [if_pos (by rw [TAKE_PROFIT_THRESHOLD]; exact habs)]

/-- Witness for C3 at concrete inputs. -/
theorem c3_take_profit_witness :
    evaluateExit none ⟨1/20, some ⟨none, none, none, none⟩⟩ (some shortPos1)
      = ({ action := .close, exitType := some .take_profit }, none) :=
  c3_take_profit none ⟨1/20, some ⟨none, none, none, none⟩⟩
    ⟨none, none, none, none⟩ shortPos1 rfl
    (by rw [abs_of_pos (by norm_num : (0:ℚ) < 1/20)]; norm_num)

/-- C5: with no position and a clear reentry lock, `evaluateEntry` signals
`enter short Short1` exactly when the deviation is at least
`max(p90, 0.6)`, else `enter long Long1` exactly when it is at most
`min(p10, -0.75)`, else no entry — with the Short1 check performed first as
the tie-break; in particular, for `p90 = 0.55`, `p95 = 0.85` and deviation
`0.65`, the result is `enter short Short1`, never a Short2 or Long signal. -/
theorem c5_entry_thresholds :
    (∀ (stats : StrategyStats) (pc : Percentiles), stats.percentiles = some pc →
      evaluateEntry none stats none =
        (if stats.deviationPercent ≥ max (orZero pc.percentile90Percent) (6/10) then
          ({ action := .enter, type := some .short, level := some .Short1 } : EntrySignal)
        else if stats.deviationPercent ≤ min (orZero pc.percentile10Percent) (-(75/100)) then
          { action := .enter, type := some .long, level := some .Long1 }
        else { action := .nullAct, type := none, level := none }, none)) ∧
    evaluateEntry none
        ⟨65/100, some ⟨some (55/100), some (85/100), some (-(1/2)), some (-(4/5))⟩⟩ none
      = ({ action := .enter, type := some .short, level := some .Short1 }, none) := by
  constructor
  · intro stats pc hps
    simp only [evaluateEntry, evaluateEntryUnlocked, hps,
      SHORT1_THRESHOLD_PERCENT, LONG1_THRESHOLD_PERCENT]
  · norm_num [evaluateEntry, evaluateEntryUnlocked, orZero,
      SHORT1_THRESHOLD_PERCENT, SHORT2_THRESHOLD_PERCENT,
      LONG1_THRESHOLD_PERCENT, LONG2_THRESHOLD_PERCENT]

/-- Witness for C5 at concrete inputs. -/
theorem c5_entry_thresholds_witness :
    evaluateEntry none ⟨0, some ⟨none, none, none, none⟩⟩ none
      = (if (0:ℚ) ≥ max (orZero none) (6/10) then
          ({ action := .enter, type := some .short, level := some .Short1 } : EntrySignal)
        else if (0:ℚ) ≤ min (orZero none) (-(75/100)) then
          { action := .enter, type := some .long, level := some .Long1 }
        else { action := .nullAct, type := none, level := none }, none) :=
  c5_entry_thresholds.1 ⟨0, some ⟨none, none, none, none⟩⟩ ⟨none, none, none, none⟩ rfl

/-- C6: entering a long of 1 contract (0.01 base units) at price 90000 on a
fresh default ledger (slippage 0.05%, fee 0.065%), then closing at 91000,
yields exactly
`netPnL = 0.01*((91000*0.9995) - (90000*1.0005)) - entryFee - exitFee` with
`entryFee = 0.01*90000*1.0005*0.00065` and
`exitFee = 0.01*91000*0.9995*0.00065` (in exact rational arithmetic). -/
theorem c6_pnl_round_trip :
    (c6CloseResult.1).realizedPnL?
      = some (1/100 * (91000 * (9995/10000) - 90000 * (10005/10000))
          - 1/100 * 90000 * (10005/10000) * (65/100000)
          - 1/100 * 91000 * (9995/10000) * (65/100000)) := by
  norm_num [c6CloseResult, c6AfterEnter, PaperTrading.enterPosition,
    PaperTrading.closePosition, PaperTrading.init, CloseResult.realizedPnL?,
    CONTRACT_SIZE, SLIPPAGE, TRADING_FEE]

/-- C7: any long entry or add for which the cash balance is below
notional+fee at the slippage-adjusted fill price returns the typed
insufficient-funds failure carrying the required and available amounts, and
leaves the entire ledger state unchanged. -/
theorem c7_insufficient_funds (pt : PaperTrading) (signal : EntrySignal)
    (price dev : ℚ) (now : ℤ)
    (hlong : signal.type = some PosType.long)
    (hcash : pt.cashBalance < enterTotalCost signal price) :
    pt.enterPosition signal price dev now
      = (EnterResult.failure (enterTotalCost signal price) pt.cashBalance, pt) := by
  simp only [PaperTrading.enterPosition]
  rw [if_pos ⟨hlong, hcash⟩]
  exact rfl

/-- Witness for C7 at concrete inputs (a $0.10 ledger cannot afford a
one-contract long at price 90000). -/
theorem c7_insufficient_funds_witness :
    (PaperTrading.init (1/10)).enterPosition
        { action := .enter, type := some PosType.long, level := some .Long1 } 90000 0 0
      = (EnterResult.failure
          (enterTotalCost
            { action := .enter, type := some PosType.long, level := some .Long1 } 90000)
          (1/10), PaperTrading.init (1/10)) :=
  c7_insufficient_funds (PaperTrading.init (1/10))
    { action := .enter, type := some PosType.long, level := some .Long1 } 90000 0 0 rfl
    (by norm_num [enterTotalCost, CONTRACT_SIZE, SLIPPAGE, TRADING_FEE, PaperTrading.init])

/-- Case analysis of `enterPosition`: the insufficient-funds branch returns
the typed failure and the unchanged ledger; both success branches append
exactly one trade-history record (and report the new position shape). -/
theorem enterPosition_cases (pt : PaperTrading) (signal : EntrySignal)
    (price dev : ℚ) (now : ℤ) :
    (pt.enterPosition signal price dev now
        = (EnterResult.failure (enterTotalCost signal price) pt.cashBalance, pt))
    ∨ (pt.currentPosition = none ∧ ∃ newPos e,
        (pt.enterPosition signal price dev now).1 = EnterResult.success newPos e ∧
        ((pt.enterPosition signal price dev now).2).currentPosition = some newPos ∧
        ((pt.enterPosition signal price dev now).2).tradeHistory
          = pt.tradeHistory ++ [TradeLog.enter signal e newPos now] ∧
        newPos.totalContractCount = 1 ∧ newPos.entries.length = 1)
    ∨ (∃ p, pt.currentPosition = some p ∧ ∃ newPos e,
        (pt.enterPosition signal price dev now).1 = EnterResult.success newPos e ∧
        ((pt.enterPosition signal price dev now).2).currentPosition = some newPos ∧
        ((pt.enterPosition signal price dev now).2).tradeHistory
          = pt.tradeHistory ++ [TradeLog.enter signal e newPos now] ∧
        newPos.totalContractCount = p.totalContractCount + 1 ∧
        newPos.entries.length = p.entries.length + 1) := by
  cases hp : pt.currentPosition with
  | none =>
    simp only [PaperTrading.enterPosition, hp]
    split_ifs with h1 h2 h2
    · left
      simp [enterTotalCost, h1]
    · right; left
      exact ⟨trivial, _, _, rfl, rfl, rfl, rfl, rfl⟩
    · left
      simp [enterTotalCost, h1]
    · right; left
      exact ⟨trivial, _, _, rfl, rfl, rfl, rfl, rfl⟩
  | some p =>
    simp only [PaperTrading.enterPosition, hp]
    split_ifs with h1 h2 h2
    · left
      simp [enterTotalCost, h1]
    · right; right
      exact ⟨p, rfl, _, _, rfl, rfl, rfl, rfl, by simp⟩
    · left
      simp [enterTotalCost, h1]
    · right; right
      exact ⟨p, rfl, _, _, rfl, rfl, rfl, rfl, by simp⟩

/-- Counterexample to C8 as stated: a failing insufficient-funds long entry
(cash $0.10 at price 90000) appends nothing to the trade history — the
history stays empty — so `enterPosition` does not append a record on every
outcome branch. -/
theorem c8_history_append_counterexample :
    (((PaperTrading.init (1/10)).enterPosition
        { action := .enter, type := some PosType.long, level := some .Long1 }
        90000 0 0).2).tradeHistory = []
      ∧ ¬ ((((PaperTrading.init (1/10)).enterPosition
          { action := .enter, type := some PosType.long, level := some .Long1 }
          90000 0 0).2).tradeHistory.length
            = (PaperTrading.init (1/10)).tradeHistory.length + 1) := by
  norm_num [PaperTrading.enterPosition, PaperTrading.init, CONTRACT_SIZE, SLIPPAGE,
    TRADING_FEE]

/-- C8 amended: `enterPosition` appends exactly one immutable trade-history
record on every branch that returns success (both the new-position branch
and the add branch); the insufficient-funds failure branch appends nothing
and leaves the history unchanged. -/
theorem c8_history_append (pt : PaperTrading) (signal : EntrySignal)
    (price dev : ℚ) (now : ℤ) :
    (∀ req avail, (pt.enterPosition signal price dev now).1 = .failure req avail →
        ((pt.enterPosition signal price dev now).2).tradeHistory = pt.tradeHistory) ∧
    (∀ pos e, (pt.enterPosition signal price dev now).1 = .success pos e →
        ∃ log, ((pt.enterPosition signal price dev now).2).tradeHistory
          = pt.tradeHistory ++ [log]) := by
  rcases enterPosition_cases pt signal price dev now with heq |
    ⟨_, newPos, e, h1, _, h3, _⟩ | ⟨p, _, newPos, e, h1, _, h3, _⟩
  · rw [heq]
    exact ⟨fun req avail _ => rfl, fun pos e h => absurd h (by simp)⟩
  · refine ⟨fun req avail h => ?_, fun pos e2 _ => ⟨_, h3⟩⟩
    rw [h1] at h
    exact absurd h (by simp)
  · refine ⟨fun req avail h => ?_, fun pos e2 _ => ⟨_, h3⟩⟩
    rw [h1] at h
    exact absurd h (by simp)

/-- Witness for C8 at concrete inputs: the failing branch leaves the (empty)
history unchanged. -/
theorem c8_history_append_witness :
    (((PaperTrading.init (1/10)).enterPosition
        { action := .enter, type := some PosType.long, level := some .Long1 }
        90000 0 0).2).tradeHistory = (PaperTrading.init (1/10)).tradeHistory :=
  (c8_history_append (PaperTrading.init (1/10))
    { action := .enter, type := some PosType.long, level := some .Long1 } 90000 0 0).1
    (360414117/400000) (1/10)
    (by norm_num [PaperTrading.enterPosition, PaperTrading.init, CONTRACT_SIZE, SLIPPAGE,
      TRADING_FEE])

theorem evaluateEntryUnlocked_none_not_add (stats : StrategyStats) :
    (evaluateEntryUnlocked stats none).action ≠ EntryAction.add := by
  unfold evaluateEntryUnlocked
  cases hsp : stats.percentiles with
  | none => simp
  | some pc =>
    dsimp only
    split_ifs <;> simp

theorem evaluateEntryUnlocked_some_not_enter (stats : StrategyStats) (p : Position) :
    (evaluateEntryUnlocked stats (some p)).action ≠ EntryAction.enter := by
  unfold evaluateEntryUnlocked
  cases hsp : stats.percentiles with
  | none => simp
  | some pc =>
    dsimp only
    split_ifs <;> simp

theorem evaluateEntryUnlocked_add_count (stats : StrategyStats) (p : Position)
    (h : (evaluateEntryUnlocked stats (some p)).action = EntryAction.add) :
    p.totalContractCount = 1 := by
  unfold evaluateEntryUnlocked at h
  cases hsp : stats.percentiles with
  | none => rw [hsp] at h; simp at h
  | some pc =>
    rw [hsp] at h
    dsimp only at h
    split_ifs at h <;> simp_all

theorem evaluateEntry_signal_cases (lock : Option PosType) (stats : StrategyStats)
    (pos : Option Position) :
    (evaluateEntry lock stats pos).1
        = { action := .noneStr, type := none, level := none } ∨
      (evaluateEntry lock stats pos).1 = evaluateEntryUnlocked stats pos := by
  unfold evaluateEntry
  cases lock with
  | none => right; rfl
  | some d =>
    dsimp only
    split
    · right; rfl
    · left; rfl

theorem closePosition_clears (pt : PaperTrading) (sig : ExitSignal)
    (price dev : ℚ) (now : ℤ) :
    ((pt.closePosition sig price dev now).2).currentPosition = none ∨
      (pt.closePosition sig price dev now).2 = pt := by
  unfold PaperTrading.closePosition
  cases pt.currentPosition with
  | none => right; rfl
  | some p => left; rfl

theorem exitPhase_pos (lock : Option PosType) (pt : PaperTrading) (ev : PipelineEvent) :
    ((exitPhase lock pt ev).2).currentPosition = none ∨ (exitPhase lock pt ev).2 = pt := by
  unfold exitPhase
  cases pt.currentPosition with
  | none => right; rfl
  | some p =>
    dsimp only
    split
    · exact closePosition_clears pt _ ev.currentPrice ev.stats.deviationPercent ev.now
    · right; rfl

theorem entryPhase_posOk (lock : Option PosType) (pt : PaperTrading) (ev : PipelineEvent)
    (h : PositionOk pt.currentPosition) :
    PositionOk (((entryPhase lock pt ev).2).currentPosition) := by
  unfold entryPhase
  dsimp only
  split
  · rename_i hact
    rcases enterPosition_cases pt (evaluateEntry lock ev.stats pt.currentPosition).1
        ev.currentPrice ev.stats.deviationPercent ev.now with heq |
      ⟨_, newPos, e, _, h2, _, hcount, hlen⟩ | ⟨p, hp, newPos, e, _, h2, _, hcount, hlen⟩
    · rw [heq]
      exact h
    · rw [h2]
      intro pos hpos
      obtain rfl := Option.some.inj hpos
      omega
    · obtain ⟨hc1, hc2⟩ := h p hp
      have hpcount : p.totalContractCount = 1 := by
        rcases evaluateEntry_signal_cases lock ev.stats pt.currentPosition with hsig | hsig
        · rw [hsig] at hact
          rcases hact with hact | hact <;> simp at hact
        · rw [hsig, hp] at hact
          rcases hact with hact | hact
          · exact absurd hact (evaluateEntryUnlocked_some_not_enter ev.stats p)
          · exact evaluateEntryUnlocked_add_count ev.stats p hact
      rw [h2]
      intro pos hpos
      obtain rfl := Option.some.inj hpos
      omega
  · exact h

theorem processUpdate_posOk (lock : Option PosType) (pt : PaperTrading)
    (ev : PipelineEvent) (h : PositionOk pt.currentPosition) :
    PositionOk (((processUpdate lock pt ev).2).currentPosition) := by
  unfold processUpdate
  apply entryPhase_posOk
  rcases exitPhase_pos lock pt ev with h1 | h1
  · rw [h1]
    intro pos hpos
    exact Option.noConfusion hpos
  · rw [h1]
    exact h

/-- C9: in every state reachable through the per-snapshot
decision-engine-plus-ledger pipeline (`evaluateExit`/`closePosition` then
`evaluateEntry`/`enterPosition`) from a fresh strategy and ledger, an
existing position's `totalContractCount` equals the number of its entries
and never exceeds 2. -/
theorem c9_position_sizing (events : List PipelineEvent) :
    PositionOk (((runPipeline events).2).currentPosition) := by
  unfold runPipeline
  have key : ∀ (s : Option PosType × PaperTrading), PositionOk s.2.currentPosition →
      PositionOk
        ((events.foldl (fun s ev => processUpdate s.1 s.2 ev) s).2).currentPosition := by
    induction events with
    | nil => intro s h; exact h
    | cons ev rest ih =>
      intro s h
      exact ih (processUpdate s.1 s.2 ev) (processUpdate_posOk s.1 s.2 ev h)
  exact key (none, PaperTrading.init 10000) (fun pos hpos => Option.noConfusion hpos)

/-- Witness for C9 at a concrete (empty) event trace. -/
theorem c9_position_sizing_witness :
    PositionOk (((runPipeline []).2).currentPosition) :=
  c9_position_sizing []

/-- Witness for C1 at a concrete operation sequence. -/
theorem c1_running_total_consistency_witness :
    Consistent (applyOps (RollingVWAP.init 12 72) [VOp.updateBar ⟨300, 10, 8, 9, 2⟩ 400]) ∧
      vwapFromTotals (applyOps (RollingVWAP.init 12 72) [VOp.updateBar ⟨300, 10, 8, 9, 2⟩ 400])
        = vwapFromScratch
            (applyOps (RollingVWAP.init 12 72) [VOp.updateBar ⟨300, 10, 8, 9, 2⟩ 400]) :=
  c1_running_total_consistency 12 72 [VOp.updateBar ⟨300, 10, 8, 9, 2⟩ 400]

end VwapCore
